import Mathlib

/-!
Verification of the mijn.host dynamic-DNS reconciliation agent.

The repository contains three variants of the same updater:
  * `mijnhost.py`               — asyncio variant (`update_record_list`, `routine`,
    `retry_async`, `get_records`, `get_public_ipv4`, `get_public_ipv6`);
  * `mijn_host_ddns_updater.py` — multi-record variant (`update_ddns` with
    `changes_found`, dry-run support);
  * `mijn_host_ddns_update.py`  — single-record, update-only variant.

Each variant's reconciliation core is embedded below as a pure Lean function.
Python strings are modelled as `List Char`; the network calls that feed the
reconcilers (public-IP discovery, record fetch) become explicit inputs; Python
exceptions become `Except`/instrumented results.  The parsing and printing of
IP literals performed via Python's `ipaddress` standard library (an external
collaborator of this repository) is modelled executably after CPython's
`ipaddress._ip_int_from_string` / `_string_from_ip_int`.
-/

/-- Python strings are modelled as lists of characters. -/
abbrev Str := List Char

/-- Literal helper: the character list of a Lean string literal. -/
def chars (s : String) : Str := s.data

/-- Python `str.split(sep)` for a one-character separator: `"a..b".split "." = ["a","","b"]`,
`"".split "." = [""]`. -/
def splitOnChar (c : Char) : Str → List Str
  | [] => [[]]
  | x :: xs =>
    let r := splitOnChar c xs
    if x == c then [] :: r
    else
      match r with
      | [] => [[x]]
      | h :: t => (x :: h) :: t

/-- Python `str.rstrip "."`: drop every trailing dot. -/
def rstripDots (s : Str) : Str := (s.reverse.dropWhile (· == '.')).reverse

/-- ASCII whitespace stripped by Python `str.strip()`. -/
def isPySpace (c : Char) : Bool :=
  c == ' ' || c == '\t' || c == '\n' || c == '\r' || c == '\x0b' || c == '\x0c'

/-- Python `str.strip()` on ASCII input: drop leading and trailing whitespace. -/
def stripWs (s : Str) : Str :=
  ((s.dropWhile isPySpace).reverse.dropWhile isPySpace).reverse

/-- Decimal digit test (Python `str.isdigit` restricted to ASCII). -/
def isDecDigit (c : Char) : Bool := '0' ≤ c && c ≤ '9'

/-- Hexadecimal digit test (the `[0-9A-Fa-f]` class used by `ipaddress`). -/
def isHexDigitChar (c : Char) : Bool :=
  isDecDigit c || ('a' ≤ c && c ≤ 'f') || ('A' ≤ c && c ≤ 'F')

/-- Numeric value of a decimal digit character. -/
def decVal (c : Char) : Nat := c.toNat - 48

/-- Numeric value of a hexadecimal digit character. -/
def hexVal (c : Char) : Nat :=
  if isDecDigit c then c.toNat - 48
  else if 'a' ≤ c && c ≤ 'f' then c.toNat - 87
  else c.toNat - 55

/-- Decimal rendering of a natural number, Python `str(int)`. -/
def natToDec (n : Nat) : Str := Nat.toDigits 10 n

/-- Lowercase hexadecimal rendering without leading zeros, Python `"%x" % n`. -/
def natToHex (n : Nat) : Str := Nat.toDigits 16 n

/-- Models CPython `ipaddress._parse_octet`: ASCII digits only, at most three
characters, no leading zeros, value at most 255. -/
def parseOctet : Str → Option Nat
  | [] => none
  | c :: cs =>
    if !((c :: cs).all isDecDigit) || (c :: cs).length > 3 then none
    else if c == '0' && !cs.isEmpty then none
    else
      let n := (c :: cs).foldl (fun a d => a * 10 + decVal d) 0
      if n > 255 then none else some n

/-- Models CPython `ipaddress.IPv4Address` string parsing
(`_ip_int_from_string`): four dot-separated octets packed into one integer.
`none` stands for the `AddressValueError` the constructor raises. -/
def parseV4 (s : Str) : Option Nat :=
  match (splitOnChar '.' s).mapM parseOctet with
  | some [a, b, c, d] => some (((a * 256 + b) * 256 + c) * 256 + d)
  | _ => none

/-- Models `str(ipaddress.IPv4Address(n))`: the canonical dotted-quad form
(defined on the parser's range `n < 2^32`; each octet is masked). -/
def canonV4 (n : Nat) : Str :=
  natToDec ((n >>> 24) &&& 255) ++ chars "." ++ natToDec ((n >>> 16) &&& 255) ++
    chars "." ++ natToDec ((n >>> 8) &&& 255) ++ chars "." ++ natToDec (n &&& 255)

/-- Models CPython `ipaddress._parse_hextet`: one to four hex digits. -/
def parseHextet (p : Str) : Option Nat :=
  if p.isEmpty || p.length > 4 || !(p.all isHexDigitChar) then none
  else some (p.foldl (fun a c => a * 16 + hexVal c) 0)

/-- One 16-bit group accumulation step used when packing hextets. -/
def packHextets (init : Nat) (gs : List Nat) : Nat :=
  gs.foldl (fun a g => a * 65536 + g) init

/-- Models CPython `ipaddress.IPv6Address` string parsing
(`_ip_int_from_string`) for the hex-group textual forms, including `::`
compression and an embedded dotted-quad final part.  `none` stands for
`AddressValueError`. -/
def parseV6 (s : Str) : Option Nat := do
  let parts0 := splitOnChar ':' s
  if parts0.length < 3 then none else
  let parts ←
    match parts0.getLast? with
    | some last =>
      if last.contains '.' then do
        let v4 ← parseV4 last
        pure (parts0.dropLast ++ [natToHex ((v4 >>> 16) &&& 0xFFFF), natToHex (v4 &&& 0xFFFF)])
      else pure parts0
    | none => none
  if parts.length > 9 then none else
  let innerEmpties :=
    (List.range parts.length).filter
      (fun i => 0 < i && i + 1 < parts.length && (parts.getD i []).isEmpty)
  match innerEmpties with
  | [] =>
    if parts.length ≠ 8 then none else
    let gs ← parts.mapM parseHextet
    pure (packHextets 0 gs)
  | [skip] =>
    let headEmpty := (parts.getD 0 []).isEmpty
    let lastEmpty := (parts.getLast? |>.getD []).isEmpty
    let partsHi := skip
    let partsLo := parts.length - skip - 1
    let partsHi ← if headEmpty then (if partsHi - 1 ≠ 0 then none else some 0) else some partsHi
    let partsLo ← if lastEmpty then (if partsLo - 1 ≠ 0 then none else some 0) else some partsLo
    let skipped := 8 - (partsHi + partsLo)
    if partsHi + partsLo ≥ 8 then none else
    let hi ← (parts.take partsHi).mapM parseHextet
    let lo ← (parts.drop (parts.length - partsLo)).mapM parseHextet
    pure (packHextets ((packHextets 0 hi) <<< (16 * skipped)) lo)
  | _ => none

/-- The eight 16-bit groups of a 128-bit address value, most significant first. -/
def hextetsOf (n : Nat) : List Nat :=
  [(n >>> 112) &&& 0xFFFF, (n >>> 96) &&& 0xFFFF, (n >>> 80) &&& 0xFFFF,
   (n >>> 64) &&& 0xFFFF, (n >>> 48) &&& 0xFFFF, (n >>> 32) &&& 0xFFFF,
   (n >>> 16) &&& 0xFFFF, n &&& 0xFFFF]

/-- Leftmost longest run of zero groups, as CPython `_compress_hextets`
computes it (strictly longer runs win, so ties keep the leftmost). -/
def bestZeroRun (hx : List Nat) : Nat × Nat :=
  let st := hx.foldl
    (fun (st : Nat × Nat × Nat × Nat × Nat) g =>
      let idx := st.1
      let cs := st.2.1
      let cl := st.2.2.1
      let bs := st.2.2.2.1
      let bl := st.2.2.2.2
      if g == 0 then
        let cs2 := if cl == 0 then idx else cs
        let cl2 := cl + 1
        if cl2 > bl then (idx + 1, cs2, cl2, cs2, cl2)
        else (idx + 1, cs2, cl2, bs, bl)
      else (idx + 1, 0, 0, bs, bl))
    (0, 0, 0, 0, 0)
  (st.2.2.2.1, st.2.2.2.2)

/-- Python `":".join parts` over our character-list strings. -/
def joinColon (ps : List Str) : Str := List.intercalate [':'] ps

/-- Models `str(ipaddress.IPv6Address(n))`: RFC 5952 compressed lowercase form
produced by CPython `_string_from_ip_int` and `_compress_hextets`. -/
def canonV6 (n : Nat) : Str :=
  let hx := hextetsOf n
  let run := bestZeroRun hx
  let bs := run.1
  let bl := run.2
  let parts :=
    if bl > 1 then
      (if bs == 0 then [([] : Str)] else []) ++
        (hx.take bs).map natToHex ++ [([] : Str)] ++
        (hx.drop (bs + bl)).map natToHex ++
        (if bs + bl == 8 then [([] : Str)] else [])
    else hx.map natToHex
  joinColon parts

/-- Decidable equality on `Except`, used only to evaluate concrete runs. -/
instance {ε α : Type} [DecidableEq ε] [DecidableEq α] : DecidableEq (Except ε α)
  | .error a, .error b =>
    if h : a = b then isTrue (by rw [h])
    else isFalse (fun hh => by cases hh; exact h rfl)
  | .error _, .ok _ => isFalse (fun hh => by cases hh)
  | .ok _, .error _ => isFalse (fun hh => by cases hh)
  | .ok a, .ok b =>
    if h : a = b then isTrue (by rw [h])
    else isFalse (fun hh => by cases hh; exact h rfl)

/-- One DNS record as parsed from the provider's payload: the four fields the
agent reads (`type`, `name`, `value`, `ttl`). -/
structure Record where
  type : Str
  name : Str
  value : Str
  ttl : Nat
deriving DecidableEq

/-- Placeholder record used to express Python's raw list indexing
(`records[i]`), which in the modelled runs never goes out of bounds. -/
def dummyRec : Record := ⟨[], [], [], 0⟩

namespace Mijnhost

/-- The fields of `mijnhost.py`'s `Config` that `update_record_list` reads
(`record_name` is already rewritten by `main` into the full target name). -/
structure Config where
  record_name : Str
  manage_records : Bool
deriving DecidableEq

/-- `DEFAULT_TTL = 300` from `mijnhost.py`. -/
def DEFAULT_TTL : Nat := 300

/-- The errors `update_record_list` can raise: the `AddressValueError` of
`ipaddress.IPv4Address(value)` / `ipaddress.IPv6Address(value)` on a record
value that is not a parseable literal. -/
inductive AddrErr where
  | invalidIPv4 (s : Str)
  | invalidIPv6 (s : Str)
deriving DecidableEq

/-- The record lookup of `mijnhost.py` line 167/168:
`next((i for i, r in enumerate(records) if r.type == ty and r.name == nm), None)`,
returning the first index together with the record found there.  Comparison is
exact string equality on both fields. -/
def findRec (ty nm : Str) : List Record → Option (Nat × Record)
  | [] => none
  | r :: rs =>
    if r.type == ty && r.name == nm then some (0, r)
    else (findRec ty nm rs).map (fun p => (p.1 + 1, p.2))

/-- The `# Handle A record` block of `update_record_list` (lines 174-205).
Returns the updated list, the `action_taken` contribution, and the
`remove_a_rec` flag.  `ipv4` is the (already fetched) result of
`get_public_ipv4`, an address value or `none`. -/
def stepA (records : List Record) (cfg : Config) (ipv4 : Option Nat)
    (a_idx aaaa_idx : Option (Nat × Record)) : Except AddrErr (List Record × Bool × Bool) :=
  match a_idx with
  | some (i, a_rec) =>
    match ipv4 with
    | some w =>
      match parseV4 a_rec.value with
      | none => .error (.invalidIPv4 a_rec.value)
      | some u =>
        if canonV4 u == canonV4 w then .ok (records, false, false)
        else .ok (records.set i { a_rec with value := canonV4 w }, true, false)
    | none =>
      if cfg.manage_records then .ok (records, false, true)
      else .ok (records, false, false)
  | none =>
    match ipv4 with
    | some w =>
      if cfg.manage_records then
        let ttl :=
          match aaaa_idx with
          | some (j, _) => (records.getD j dummyRec).ttl
          | none => DEFAULT_TTL
        .ok (records ++ [{ type := chars "A", name := cfg.record_name,
                           value := canonV4 w, ttl := ttl }], true, false)
      else .ok (records, false, false)
    | none => .ok (records, false, false)

/-- The `# Handle AAAA record` block of `update_record_list` (lines 207-238),
symmetric to `stepA`; it runs on the list as left by the A block and re-reads
`records[aaaa_idx]` / `records[a_idx]` from that list, as the Python does. -/
def stepAAAA (records : List Record) (cfg : Config) (ipv6 : Option Nat)
    (a_idx aaaa_idx : Option (Nat × Record)) : Except AddrErr (List Record × Bool × Bool) :=
  match aaaa_idx with
  | some (j, _) =>
    let aaaa_rec := records.getD j dummyRec
    match ipv6 with
    | some w =>
      match parseV6 aaaa_rec.value with
      | none => .error (.invalidIPv6 aaaa_rec.value)
      | some u =>
        if canonV6 u == canonV6 w then .ok (records, false, false)
        else .ok (records.set j { aaaa_rec with value := canonV6 w }, true, false)
    | none =>
      if cfg.manage_records then .ok (records, false, true)
      else .ok (records, false, false)
  | none =>
    match ipv6 with
    | some w =>
      if cfg.manage_records then
        let ttl :=
          match a_idx with
          | some (i, _) => (records.getD i dummyRec).ttl
          | none => DEFAULT_TTL
        .ok (records ++ [{ type := chars "AAAA", name := cfg.record_name,
                           value := canonV6 w, ttl := ttl }], true, false)
      else .ok (records, false, false)
    | none => .ok (records, false, false)

/-- The `# Remove records if needed` block (lines 240-249): each flagged family
is removed with a list comprehension dropping EVERY record whose `(type, name)`
matches, and `action_taken` is set. -/
def applyRemovals (records : List Record) (cfg : Config) (action : Bool)
    (remove_a remove_aaaa : Bool) : List Record × Bool :=
  let st1 :=
    if remove_a then
      (records.filter (fun r => !(r.type == chars "A" && r.name == cfg.record_name)), true)
    else (records, action)
  if remove_aaaa then
    (st1.1.filter (fun r => !(r.type == chars "AAAA" && r.name == cfg.record_name)), true)
  else st1

/-- `mijnhost.py` `update_record_list` (lines 165-251) as a pure function: the
two discovered addresses, fetched inside the Python function, are inputs here.
Returns the final record list and `action_taken`. -/
def update_record_list (records : List Record) (cfg : Config)
    (ipv4 ipv6 : Option Nat) : Except AddrErr (List Record × Bool) :=
  let a_idx := findRec (chars "A") cfg.record_name records
  let aaaa_idx := findRec (chars "AAAA") cfg.record_name records
  match stepA records cfg ipv4 a_idx aaaa_idx with
  | .error e => .error e
  | .ok (records1, act1, remove_a) =>
    match stepAAAA records1 cfg ipv6 a_idx aaaa_idx with
    | .error e => .error e
    | .ok (records2, act2, remove_aaaa) =>
      .ok (applyRemovals records2 cfg (act1 || act2) remove_a remove_aaaa)

/-- `mijnhost.py` `routine` (lines 153-163) after the fetch: `some records`
models the `put_records` call with its payload, `none` models the
`"no action required"` branch where `put_records` is not invoked. -/
def routine_write (records : List Record) (cfg : Config)
    (ipv4 ipv6 : Option Nat) : Except AddrErr (Option (List Record)) :=
  match update_record_list records cfg ipv4 ipv6 with
  | .error e => .error e
  | .ok (rs, action_taken) => .ok (if action_taken then some rs else none)

/-- The full target name computed by `main` (lines 87-90): `"@"` becomes
`"<domain>."` (with a trailing dot), anything else `"<name>.<domain>"`. -/
def record_name_for (record_name domain_name : Str) : Str :=
  if record_name == chars "@" then domain_name ++ chars "."
  else record_name ++ chars "." ++ domain_name

/-- One attempt of `get_records` / `put_records` / the retried coroutine,
modelled as a function from the attempt number to its outcome. -/
abbrev Attempts (ε α : Type) := Nat → Except ε α

/-- The loop body of `retry_async` (lines 134-144): `k` is the number of calls
already made, the final `Nat` is the remaining retry budget
(`retries - attempt`).  Returns the result together with the total number of
invocations of the wrapped operation. -/
def retryGo (op : Attempts ε α) (k : Nat) : Nat → Except ε α × Nat
  | 0 =>
    match op k with
    | .ok a => (.ok a, k + 1)
    | .error e => (.error e, k + 1)
  | r + 1 =>
    match op k with
    | .ok a => (.ok a, k + 1)
    | .error _ => retryGo op (k + 1) r

/-- `mijnhost.py` `retry_async` (lines 134-144): `attempt` starts at 0, every
exception increments it, and the exception is re-raised only once
`attempt > retries`.  Instrumented with the invocation count. -/
def retry_async (op : Attempts ε α) (retries : Nat) : Except ε α × Nat :=
  retryGo op 0 retries

/-- `mijnhost.py` `get_records` (lines 24-39): `for attempt in range(3)` with
`raise` when `attempt == 2`; each `op` attempt stands for one
request+parse round trip.  Instrumented with the invocation count.  (The
`return []` after the loop is unreachable for `range(3)`.) -/
def get_records (op : Attempts ε (List Record)) : Except ε (List Record) × Nat :=
  match op 0 with
  | .ok v => (.ok v, 1)
  | .error _ =>
    match op 1 with
    | .ok v => (.ok v, 2)
    | .error _ =>
      match op 2 with
      | .ok v => (.ok v, 3)
      | .error e => (.error e, 3)

/-- Outcome of one `session.get` + body read against the what-is-my-IP
service: a `ClientConnectorError` (no route), some other exception, or a
response body. -/
inductive FetchRes where
  | connErr
  | httpErr
  | body (s : Str)

/-- The exception classes that can escape `get_public_ipv4`/`get_public_ipv6`:
the re-raised transport error or the `ValueError` of IP parsing. -/
inductive PyExn where
  | httpExn
  | valueExn
deriving DecidableEq

/-- Loop of `get_public_ipv4` (lines 100-115): `k` attempts already made, the
final `Nat` the remaining loop iterations (`retries - k`).  A
`ClientConnectorError` returns `None` at once; any other failure re-raises when
`attempt == retries - 1` and otherwise retries.  Counts invocations. -/
def getPublicV4Go (att : Nat → FetchRes) (retries k : Nat) :
    Nat → Except PyExn (Option Nat) × Nat
  | 0 => (.ok none, k)
  | left + 1 =>
    match att k with
    | .connErr => (.ok none, k + 1)
    | .httpErr =>
      if k == retries - 1 then (.error .httpExn, k + 1)
      else getPublicV4Go att retries (k + 1) left
    | .body s =>
      match parseV4 (stripWs s) with
      | some ip => (.ok (some ip), k + 1)
      | none =>
        if k == retries - 1 then (.error .valueExn, k + 1)
        else getPublicV4Go att retries (k + 1) left

/-- `mijnhost.py` `get_public_ipv4` (lines 100-115), instrumented with the
number of attempts actually made. -/
def get_public_ipv4 (att : Nat → FetchRes) (retries : Nat) :
    Except PyExn (Option Nat) × Nat :=
  getPublicV4Go att retries 0 retries

/-- Loop of `get_public_ipv6` (lines 117-132), identical to the IPv4 one with
`ipaddress.IPv6Address` parsing. -/
def getPublicV6Go (att : Nat → FetchRes) (retries k : Nat) :
    Nat → Except PyExn (Option Nat) × Nat
  | 0 => (.ok none, k)
  | left + 1 =>
    match att k with
    | .connErr => (.ok none, k + 1)
    | .httpErr =>
      if k == retries - 1 then (.error .httpExn, k + 1)
      else getPublicV6Go att retries (k + 1) left
    | .body s =>
      match parseV6 (stripWs s) with
      | some ip => (.ok (some ip), k + 1)
      | none =>
        if k == retries - 1 then (.error .valueExn, k + 1)
        else getPublicV6Go att retries (k + 1) left

/-- `mijnhost.py` `get_public_ipv6` (lines 117-132), instrumented with the
number of attempts actually made. -/
def get_public_ipv6 (att : Nat → FetchRes) (retries : Nat) :
    Except PyExn (Option Nat) × Nat :=
  getPublicV6Go att retries 0 retries

end Mijnhost

namespace Updater

/-- The configuration fields `mijn_host_ddns_updater.py`'s `update_ddns` reads:
`domain_name`, `record_names`, `create_records_if_missing` (defaulting to
false) and `default_ttl`. -/
structure DConfig where
  domain_name : Str
  record_names : List Str
  create_records_if_missing : Bool
  default_ttl : Nat
deriving DecidableEq

/-- One entry of `changes_found`.  The Python appends a formatted summary
string; this inductive carries the same data injectively. -/
inductive DChange where
  | updateA (target oldv newv : Str)
  | createA (target ip : Str) (ttl : Nat)
  | updateAAAA (target oldv newv : Str)
  | createAAAA (target ip : Str) (ttl : Nat)
deriving DecidableEq

/-- `normalize_record_name` (line 100-101): strip trailing dots. -/
def normalize_record_name (s : Str) : Str := rstripDots s

/-- `full_target_name` (line 104): `"<name>.<domain>"` unless the short name is
`"@"` (then the bare domain), with all trailing dots stripped. -/
def full_target_name (n domain : Str) : Str :=
  rstripDots (if n == chars "@" then domain else n ++ chars "." ++ domain)

/-- Python truthiness of the `Optional[str]` returned by `get_public_ip`:
present and non-empty. -/
def truthy (o : Option Str) : Bool :=
  match o with
  | none => false
  | some s => !s.isEmpty

/-- The A-record match predicate of line 110. -/
def matchA (t : Str) (r : Record) : Bool :=
  r.type == chars "A" && normalize_record_name r.name == t

/-- The AAAA-record match predicate of line 129. -/
def matchAAAA (t : Str) (r : Record) : Bool :=
  r.type == chars "AAAA" && normalize_record_name r.name == t

/-- In-place mutation of the first record satisfying `p` (the Python mutates
the dict `next(...)` returned, which lives in the list). -/
def updateFirst (p : Record → Bool) (f : Record → Record) : List Record → List Record
  | [] => []
  | r :: rs => if p r then f r :: rs else r :: updateFirst p f rs

/-- The `# Process IPv4 (A record)` block (lines 109-125) for one configured
name, acting on the running `(records_to_update, changes_found)` state.  Note
the created record's `name` is the SHORT configured name (line 124), while the
lookup compares normalized names against the full target. -/
def processA (cfg : DConfig) (ipv4s n : Str) (st : List Record × List DChange) :
    List Record × List DChange :=
  let t := full_target_name n cfg.domain_name
  match st.1.find? (matchA t) with
  | some a_record =>
    if a_record.value == ipv4s then st
    else (updateFirst (matchA t) (fun r => { r with value := ipv4s }) st.1,
          st.2 ++ [.updateA t a_record.value ipv4s])
  | none =>
    if cfg.create_records_if_missing then
      (st.1 ++ [{ type := chars "A", name := n, value := ipv4s, ttl := cfg.default_ttl }],
       st.2 ++ [.createA t ipv4s cfg.default_ttl])
    else st

/-- The `# Process IPv6 (AAAA record)` block (lines 128-144), symmetric. -/
def processAAAA (cfg : DConfig) (ipv6s n : Str) (st : List Record × List DChange) :
    List Record × List DChange :=
  let t := full_target_name n cfg.domain_name
  match st.1.find? (matchAAAA t) with
  | some aaaa_record =>
    if aaaa_record.value == ipv6s then st
    else (updateFirst (matchAAAA t) (fun r => { r with value := ipv6s }) st.1,
          st.2 ++ [.updateAAAA t aaaa_record.value ipv6s])
  | none =>
    if cfg.create_records_if_missing then
      (st.1 ++ [{ type := chars "AAAA", name := n, value := ipv6s, ttl := cfg.default_ttl }],
       st.2 ++ [.createAAAA t ipv6s cfg.default_ttl])
    else st

/-- The body of the `for record_name_from_config in record_names_to_update`
loop (lines 103-144): each family is processed only when the discovered
address is truthy. -/
def processName (cfg : DConfig) (ipv4 ipv6 : Option Str)
    (st : List Record × List DChange) (n : Str) : List Record × List DChange :=
  let st1 := if truthy ipv4 then processA cfg (ipv4.getD []) n st else st
  if truthy ipv6 then processAAAA cfg (ipv6.getD []) n st1 else st1

/-- `mijn_host_ddns_updater.py` `update_ddns` (lines 89-144) after the fetch,
as a pure function of the fetched records, configuration and the two
discovered address strings: returns `records_to_update` and `changes_found`. -/
def update_ddns_core (all_records : List Record) (cfg : DConfig)
    (ipv4 ipv6 : Option Str) : List Record × List DChange :=
  cfg.record_names.foldl (processName cfg ipv4 ipv6) (all_records, [])

/-- The write decision of `update_ddns` (lines 146-155): `put_records` is
called with `records_to_update` exactly when `changes_found` is non-empty and
dry-run mode is off. -/
def update_ddns_put (all_records : List Record) (cfg : DConfig)
    (ipv4 ipv6 : Option Str) (dry_run : Bool) : Option (List Record) :=
  let st := update_ddns_core all_records cfg ipv4 ipv6
  if !st.2.isEmpty && !dry_run then some st.1 else none

end Updater

namespace UpdateV1

/-- The target-name derivation of `mijn_host_ddns_update.py` line 79:
`"<name>.<domain>"` unless the short name is `"@"` (then the bare domain); no
dot stripping. -/
def record_name_for (n domain : Str) : Str :=
  if n == chars "@" then domain else n ++ chars "." ++ domain

/-- The A step of `mijn_host_ddns_update.py` `update_ddns` (lines 90-104):
exact name equality, string comparison of values, update-only. -/
def stepFamily (ty : Str) (record_name : Str) (ip : Option Str)
    (st : List Record × Bool) : List Record × Bool :=
  if Updater.truthy ip then
    let ips := ip.getD []
    match st.1.find? (fun r => r.type == ty && r.name == record_name) with
    | some rec0 =>
      if rec0.value == ips then st
      else (Updater.updateFirst (fun r => r.type == ty && r.name == record_name)
              (fun r => { r with value := ips }) st.1, true)
    | none => st
  else st

/-- `mijn_host_ddns_update.py` `update_ddns` (lines 86-121) after the fetch:
the A step (lines 90-104) then the AAAA step (lines 107-121), returning
`records_to_update` and `action_taken`. -/
def update_ddns_core (all_records : List Record) (record_name : Str)
    (ipv4 ipv6 : Option Str) : List Record × Bool :=
  stepFamily (chars "AAAA") record_name ipv6
    (stepFamily (chars "A") record_name ipv4 (all_records, false))

/-- The write decision of lines 123-127: `put_records` is invoked iff
`action_taken`. -/
def update_ddns_put (all_records : List Record) (record_name : Str)
    (ipv4 ipv6 : Option Str) : Option (List Record) :=
  let st := update_ddns_core all_records record_name ipv4 ipv6
  if st.2 then some st.1 else none

end UpdateV1

/-! Concrete fixtures used by witnesses and counterexamples. -/

/-- Target name used in concrete runs. -/
def tName : Str := chars "home.example.com"

/-- A `mijnhost.py` configuration with record management enabled. -/
def cfgT : Mijnhost.Config := ⟨tName, true⟩

/-- An existing A record for the target. -/
def recA1 : Record := ⟨chars "A", tName, chars "1.2.3.4", 300⟩

/-- A second A record with the same `(type, name)` pair. -/
def recA2 : Record := ⟨chars "A", tName, chars "5.6.7.8", 300⟩

/-- A sibling AAAA record for the target. -/
def recAAAA : Record := ⟨chars "AAAA", tName, chars "2001:db8::1", 600⟩

/-- An MX record the agent must never touch. -/
def recMX : Record := ⟨chars "MX", tName, chars "mail.example.com.", 900⟩

/-- The address value of `"2001:db8::1"`. -/
def w6 : Nat := 0x20010db8000000000000000000000001

/-- A record whose name carries a trailing dot. -/
def recDotted : Record := ⟨chars "A", chars "home.example.com.", chars "1.2.3.4", 300⟩

/-- An updater configuration: domain `example.com`, one short name `home`,
creation enabled, default TTL 300. -/
def ucfg : Updater.DConfig := ⟨chars "example.com", [chars "home"], true, 300⟩

/-- The record `update_ddns` creates for `ucfg` when discovering `5.6.7.8`:
note its `name` is the short configured name. -/
def urec : Record := ⟨chars "A", chars "home", chars "5.6.7.8", 300⟩

/-- The change entry reported for that creation. -/
def uchg : Updater.DChange :=
  .createA (chars "home.example.com") (chars "5.6.7.8") 300

/-- An A record for the full target name with TTL 1800. -/
def recA1800 : Record := ⟨chars "A", tName, chars "1.2.3.4", 1800⟩

/-! Generic list lemmas used by the reconciler proofs. -/

/-- Setting an index holding `u` does not change the multiplicity of an
element different from both `u` and the new value. -/
theorem countSetNe {α : Type} [DecidableEq α] {l : List α} {i : Nat} {u v r : α}
    (hget : l.get? i = some u) (hru : r ≠ u) (hrv : r ≠ v) :
    (l.set i v).count r = l.count r := by
  induction l generalizing i with
  | nil => simp at hget
  | cons x xs ih =>
    cases i with
    | zero =>
      injection hget with hx
      subst hx
      simp only [List.set_cons_zero, List.count_cons]
      rw [if_neg (by simp [beq_iff_eq]; exact fun h => hrv h.symm),
        if_neg (by simp [beq_iff_eq]; exact fun h => hru h.symm)]
    | succ n =>
      simp only [List.set_cons_succ, List.count_cons, ih (by simpa using hget)]

/-- Appending a single element different from `r` preserves `r`'s count. -/
theorem countAppendNe {α : Type} [DecidableEq α] {l : List α} {x r : α} (h : r ≠ x) :
    (l ++ [x]).count r = l.count r := by
  rw [List.count_append, List.count_singleton,
    if_neg (by simp [beq_iff_eq]; exact fun hh => h hh.symm)]
  omega

/-- An element different from the one stored at the set position stays a
member after the set. -/
theorem memSetNe {α : Type} {l : List α} {j : Nat} {u v r : α}
    (hmem : r ∈ l) (hget : l.get? j = some u) (hru : r ≠ u) : r ∈ l.set j v := by
  obtain ⟨k, hk⟩ := List.mem_iff_get?.1 hmem
  have hkj : j ≠ k := by
    intro he
    subst he
    rw [hk] at hget
    injection hget with h
    exact hru h
  refine List.mem_iff_get?.2 ⟨k, ?_⟩
  rw [List.get?_eq_getElem?] at hk ⊢
  rw [List.getElem?_set_ne hkj]
  exact hk

/-- A list member survives a lookup at a smaller index. -/
theorem getqAppendLeft {α : Type} {l l2 : List α} {j : Nat} {b : α}
    (h : l.get? j = some b) : (l ++ l2).get? j = some b := by
  rw [List.get?_eq_getElem?] at h ⊢
  have hj : j < l.length := by
    by_contra hge
    rw [List.getElem?_eq_none (by omega)] at h
    cases h
  rw [List.getElem?_append_left hj]
  exact h

/-- `getD` agrees with a successful `get?`. -/
theorem getDEq {α : Type} {l : List α} {j : Nat} {b : α} (h : l.get? j = some b) (d : α) :
    l.getD j d = b := by
  rw [List.getD_eq_getElem?_getD, ← List.get?_eq_getElem?, h]
  rfl

namespace Mijnhost

/-- What a successful `findRec` lookup guarantees: the pair is the record
stored at the returned index, and it matches the requested type and name. -/
theorem findRec_eq_some {ty nm : Str} {rs : List Record} {i : Nat} {r : Record}
    (h : findRec ty nm rs = some (i, r)) :
    rs.get? i = some r ∧ r.type = ty ∧ r.name = nm := by
  induction rs generalizing i with
  | nil => simp [findRec] at h
  | cons x xs ih =>
    by_cases hx : (x.type == ty && x.name == nm) = true
    · rw [findRec, if_pos hx] at h
      injection h with hp
      injection hp with h1 h2
      subst h1
      subst h2
      simp only [Bool.and_eq_true, beq_iff_eq] at hx
      exact ⟨rfl, hx.1, hx.2⟩
    · rw [findRec, if_neg hx] at h
      cases hfx : findRec ty nm xs with
      | none => rw [hfx] at h; cases h
      | some p =>
        obtain ⟨n, q⟩ := p
        rw [hfx, Option.map_some'] at h
        injection h with hp
        injection hp with h1 h2
        subst h2
        obtain ⟨hget, ht, hn⟩ := ih hfx
        subst h1
        exact ⟨by simpa using hget, ht, hn⟩

end Mijnhost

namespace Mijnhost

/-- `findRec` succeeds exactly when some record matches both fields by exact
string equality. -/
theorem findRec_isSome_iff (ty nm : Str) (rs : List Record) :
    (findRec ty nm rs).isSome = true ↔ ∃ r, r ∈ rs ∧ r.type = ty ∧ r.name = nm := by
  induction rs with
  | nil => simp [findRec]
  | cons x xs ih =>
    by_cases hx : (x.type == ty && x.name == nm) = true
    · rw [findRec, if_pos hx]
      simp only [Bool.and_eq_true, beq_iff_eq] at hx
      simp only [Option.isSome_some, true_iff]
      exact ⟨x, List.mem_cons_self _ _, hx.1, hx.2⟩
    · rw [findRec, if_neg hx]
      rw [Option.isSome_map']
      rw [ih]
      constructor
      · rintro ⟨r, hr, ht, hn⟩
        exact ⟨r, List.mem_cons_of_mem _ hr, ht, hn⟩
      · rintro ⟨r, hr, ht, hn⟩
        rcases List.mem_cons.1 hr with hrx | hrxs
        · exfalso
          subst hrx
          exact hx (by simp [beq_iff_eq, ht, hn])
        · exact ⟨r, hrxs, ht, hn⟩

/-- The invocation count of `retryGo` never exceeds first-call index plus
budget plus one. -/
theorem retryGo_count_le {ε α : Type} (op : Attempts ε α) :
    ∀ (rem k : Nat), (retryGo op k rem).2 ≤ k + rem + 1 := by
  intro rem
  induction rem with
  | zero =>
    intro k
    cases hop : op k <;> simp [retryGo, hop]
  | succ r ih =>
    intro k
    cases hop : op k with
    | ok a => simp [retryGo, hop]
    | error e =>
      have := ih (k + 1)
      simp only [retryGo, hop]
      omega

/-- If every attempt fails, `retryGo` makes exactly budget-plus-one calls and
propagates the error of the last one. -/
theorem retryGo_all_error {ε α : Type} (op : Attempts ε α) (errf : Nat → ε)
    (h : ∀ j, op j = .error (errf j)) :
    ∀ (rem k : Nat), retryGo op k rem = (.error (errf (k + rem)), k + rem + 1) := by
  intro rem
  induction rem with
  | zero =>
    intro k
    simp [retryGo, h k]
  | succ r ih =>
    intro k
    have hk : k + 1 + r = k + (r + 1) := by omega
    simp only [retryGo, h k]
    rw [ih (k + 1), hk]

/-- If every attempt fails, `get_records` makes exactly three calls and
propagates the third error. -/
theorem get_records_all_error {ε : Type} (op : Attempts ε (List Record)) (errf : Nat → ε)
    (h : ∀ j, op j = .error (errf j)) :
    get_records op = (.error (errf 2), 3) := by
  simp [get_records, h 0, h 1, h 2]

/-- `get_records` never makes more than three attempts. -/
theorem get_records_count_le {ε : Type} (op : Attempts ε (List Record)) :
    (get_records op).2 ≤ 3 := by
  unfold get_records
  cases op 0 <;> cases op 1 <;> cases op 2 <;> simp

/-- If every attempt of the IPv4 discovery hits a non-connector failure, the
loop re-raises after exactly `retries` calls. -/
theorem getPublicV4Go_all_http (att : Nat → FetchRes) (retries : Nat)
    (h : ∀ j, att j = .httpErr) :
    ∀ (left k : Nat), 1 ≤ left → k + left = retries →
      getPublicV4Go att retries k left = (.error .httpExn, retries) := by
  intro left
  induction left with
  | zero => omega
  | succ l ih =>
    intro k h1 h2
    cases l with
    | zero =>
      have hk : (k == retries - 1) = true := by
        rw [beq_iff_eq]; omega
      simp only [getPublicV4Go, h k, hk, if_true]
      have : k + 1 = retries := by omega
      rw [this]
    | succ m =>
      have hk : (k == retries - 1) = false := by
        rw [beq_eq_false_iff_ne]; omega
      simp only [getPublicV4Go, h k, hk, if_false]
      exact ih (k + 1) (by omega) (by omega)

/-- Symmetric fact for the IPv6 discovery loop. -/
theorem getPublicV6Go_all_http (att : Nat → FetchRes) (retries : Nat)
    (h : ∀ j, att j = .httpErr) :
    ∀ (left k : Nat), 1 ≤ left → k + left = retries →
      getPublicV6Go att retries k left = (.error .httpExn, retries) := by
  intro left
  induction left with
  | zero => omega
  | succ l ih =>
    intro k h1 h2
    cases l with
    | zero =>
      have hk : (k == retries - 1) = true := by
        rw [beq_iff_eq]; omega
      simp only [getPublicV6Go, h k, hk, if_true]
      have : k + 1 = retries := by omega
      rw [this]
    | succ m =>
      have hk : (k == retries - 1) = false := by
        rw [beq_eq_false_iff_ne]; omega
      simp only [getPublicV6Go, h k, hk, if_false]
      exact ih (k + 1) (by omega) (by omega)

end Mijnhost

/-- C7 (amended): `retry_async` with budget `retries` invokes the wrapped
operation at most `retries + 1` times in total (the parameter counts retries
after the first call, not total tries), and when every attempt fails it
propagates the error of the final attempt; `get_records`' inline loop makes at
most 3 total tries and propagates the third failure. -/
theorem c7_retry_bound_and_propagation (ε α : Type) :
    (∀ (op : Mijnhost.Attempts ε α) (retries : Nat),
        (Mijnhost.retry_async op retries).2 ≤ retries + 1) ∧
    (∀ (op : Mijnhost.Attempts ε α) (errf : Nat → ε) (retries : Nat),
        (∀ j, op j = .error (errf j)) →
        Mijnhost.retry_async op retries = (.error (errf retries), retries + 1)) ∧
    (∀ (op : Mijnhost.Attempts ε (List Record)), (Mijnhost.get_records op).2 ≤ 3) ∧
    (∀ (op : Mijnhost.Attempts ε (List Record)) (errf : Nat → ε),
        (∀ j, op j = .error (errf j)) →
        Mijnhost.get_records op = (.error (errf 2), 3)) := by
  refine ⟨?_, ?_, ?_, ?_⟩
  · intro op retries
    simpa [Mijnhost.retry_async] using Mijnhost.retryGo_count_le op retries 0
  · intro op errf retries hall
    simpa [Mijnhost.retry_async] using Mijnhost.retryGo_all_error op errf hall retries 0
  · intro op
    exact Mijnhost.get_records_count_le op
  · intro op errf hall
    exact Mijnhost.get_records_all_error op errf hall

/-- C7 counterexample: with `retries = 1` (a `max_attempts ≥ 1` instance) and
an operation that always fails, `retry_async` invokes the operation twice, not
at most once as the claim reads the parameter. -/
theorem c7_counterexample :
    (Mijnhost.retry_async (fun _ => (Except.error 0 : Except Nat Unit)) 1).2 = 2 ∧
    ¬ (Mijnhost.retry_async (fun _ => (Except.error 0 : Except Nat Unit)) 1).2 ≤ 1 := by
  constructor
  · rfl
  · decide

/-- C7 witness: the bound and the propagation facts instantiated at a concrete
always-failing operation. -/
theorem c7_witness :
    Mijnhost.retry_async (fun _ => (Except.error 7 : Except Nat Unit)) 2 = (.error 7, 3) ∧
    Mijnhost.get_records (fun _ => (Except.error 7 : Except Nat (List Record))) =
      (.error 7, 3) :=
  ⟨(c7_retry_bound_and_propagation Nat Unit).2.1 _ (fun _ => 7) 2 (fun _ => rfl),
   (c7_retry_bound_and_propagation Nat (List Record)).2.2.2 _ (fun _ => 7) (fun _ => rfl)⟩

/-- C8 (amended): the retry wrappers classify nothing: an operation that
always fails with one fixed (4xx-style) error is retried like any other
failure — `retry_async` still performs `retries + 1` invocations and
`get_records` three, and only then is the error propagated. -/
theorem c8_client_errors_retried (status retries : Nat) :
    Mijnhost.retry_async (fun _ => (Except.error status : Except Nat Unit)) retries =
      (.error status, retries + 1) ∧
    Mijnhost.get_records (fun _ => (Except.error status : Except Nat (List Record))) =
      (.error status, 3) := by
  constructor
  · simpa [Mijnhost.retry_async] using
      Mijnhost.retryGo_all_error (fun _ => (Except.error status : Except Nat Unit))
        (fun _ => status) (fun _ => rfl) retries 0
  · exact Mijnhost.get_records_all_error _ (fun _ => status) (fun _ => rfl)

/-- C8 counterexample: an operation failing with status 403 on every attempt
is invoked three times by `retry_async retries := 2`, not reported immediately
after the first attempt. -/
theorem c8_counterexample :
    (Mijnhost.retry_async (fun _ => (Except.error 403 : Except Nat Unit)) 2).2 = 3 ∧
    (Mijnhost.retry_async (fun _ => (Except.error 403 : Except Nat Unit)) 2).2 ≠ 1 := by
  constructor
  · rfl
  · decide

/-- C9 (amended): IP discovery returns `none` immediately (one invocation, no
retry) when the transport reports no route for the family; but when every
attempt fails with any other error, the final attempt RE-RAISES the failure
instead of returning `none`, after exactly `retries` invocations. -/
theorem c9_discovery_behaviour (att : Nat → Mijnhost.FetchRes) (retries : Nat) :
    (retries ≥ 1 → att 0 = .connErr →
      Mijnhost.get_public_ipv4 att retries = (.ok none, 1) ∧
      Mijnhost.get_public_ipv6 att retries = (.ok none, 1)) ∧
    ((∀ k, att k = .httpErr) → retries ≥ 1 →
      Mijnhost.get_public_ipv4 att retries = (.error .httpExn, retries) ∧
      Mijnhost.get_public_ipv6 att retries = (.error .httpExn, retries)) := by
  constructor
  · intro hr h0
    obtain ⟨l, rfl⟩ : ∃ l, retries = l + 1 := ⟨retries - 1, by omega⟩
    constructor
    · simp [Mijnhost.get_public_ipv4, Mijnhost.getPublicV4Go, h0]
    · simp [Mijnhost.get_public_ipv6, Mijnhost.getPublicV6Go, h0]
  · intro hall hr
    exact ⟨Mijnhost.getPublicV4Go_all_http att retries hall retries 0 (by omega) (by omega),
      Mijnhost.getPublicV6Go_all_http att retries hall retries 0 (by omega) (by omega)⟩

/-- C9 counterexample: with three attempts all failing with a non-connector
error, `get_public_ipv4` propagates the exception; it does not return the
absent value the claim promises. -/
theorem c9_counterexample :
    Mijnhost.get_public_ipv4 (fun _ => Mijnhost.FetchRes.httpErr) 3 =
      (Except.error Mijnhost.PyExn.httpExn, 3) ∧
    (Except.error Mijnhost.PyExn.httpExn : Except Mijnhost.PyExn (Option Nat)) ≠
      Except.ok none := by
  constructor
  · rfl
  · intro h
    cases h

/-- C9 witness: the amended behaviour at concrete attempt sequences. -/
theorem c9_witness :
    Mijnhost.get_public_ipv4 (fun _ => Mijnhost.FetchRes.connErr) 3 = (.ok none, 1) ∧
    Mijnhost.get_public_ipv6 (fun _ => Mijnhost.FetchRes.httpErr) 3 =
      (.error Mijnhost.PyExn.httpExn, 3) :=
  ⟨((c9_discovery_behaviour (fun _ => .connErr) 3).1 (by omega) rfl).1,
   ((c9_discovery_behaviour (fun _ => .httpErr) 3).2 (fun _ => rfl) (by omega)).2⟩

/-- C1 (code bug): at the failing input, the first `update_ddns` pass creates
the missing A record — but with the SHORT configured name `home` (line 124),
while the lookup (line 110) compares dot-stripped record names against the
full target `home.example.com`.  The second pass on the first pass's output
with the same discovered addresses therefore does not find the record and
reports another Create change: `changes_found` is NOT empty, contradicting the
claimed idempotence. -/
theorem c1_second_pass_not_idempotent :
    Updater.update_ddns_core [] ucfg (some (chars "5.6.7.8")) none = ([urec], [uchg]) ∧
    Updater.update_ddns_core [urec] ucfg (some (chars "5.6.7.8")) none =
      ([urec, urec], [uchg]) ∧
    ([uchg] : List Updater.DChange) ≠ [] := by
  refine ⟨by decide, by decide, by decide⟩

/-- C4 counterexample: in `mijnhost.py` (the cited code) the short name `"@"`
maps to `"example.com."` — the dotted domain, not the bare domain — and the
lookup uses exact equality, so a record named `home.example.com.` does not
match the target `home.example.com`. -/
theorem c4_counterexample :
    Mijnhost.record_name_for (chars "@") (chars "example.com") = chars "example.com." ∧
    chars "example.com." ≠ chars "example.com" ∧
    Mijnhost.findRec (chars "A") (chars "home.example.com") [recDotted] = none := by
  refine ⟨rfl, by decide, by decide⟩

/-- C4 (amended): `mijnhost.py` matches records by exact string equality (a
lookup succeeds precisely when a record has literally the requested type and
name) and maps `"@"` to the dotted `"<domain>."`; `mijn_host_ddns_updater.py`
is the variant that normalizes — `"@"` maps to the bare domain and a record
matches after stripping all trailing dots, so there `home.example.com.`
matches `home.example.com`. -/
theorem c4_name_normalization :
    (∀ (ty nm : Str) (rs : List Record),
        (Mijnhost.findRec ty nm rs).isSome = true ↔
          ∃ r, r ∈ rs ∧ r.type = ty ∧ r.name = nm) ∧
    Updater.full_target_name (chars "@") (chars "example.com") = chars "example.com" ∧
    Updater.matchA (chars "home.example.com") recDotted = true ∧
    [recDotted].find? (Updater.matchA (chars "home.example.com")) = some recDotted ∧
    Mijnhost.record_name_for (chars "@") (chars "example.com") =
      chars "example.com" ++ chars "." := by
  refine ⟨Mijnhost.findRec_isSome_iff, by decide, by decide, by decide, rfl⟩

/-- C5: in all three variants, a pass that computes no change never invokes
the record write: `routine` only calls `put_records` when `action_taken`, and
both `update_ddns` variants only when `changes_found` / `action_taken` is
non-trivial. -/
theorem c5_no_write_without_change :
    (∀ (rs : List Record) (cfg : Mijnhost.Config) (v4 v6 : Option Nat) (rs1 : List Record),
        Mijnhost.update_record_list rs cfg v4 v6 = .ok (rs1, false) →
        Mijnhost.routine_write rs cfg v4 v6 = .ok none) ∧
    (∀ (rs : List Record) (cfg : Updater.DConfig) (v4 v6 : Option Str) (dry : Bool),
        (Updater.update_ddns_core rs cfg v4 v6).2 = [] →
        Updater.update_ddns_put rs cfg v4 v6 dry = none) ∧
    (∀ (rs : List Record) (nm : Str) (v4 v6 : Option Str),
        (UpdateV1.update_ddns_core rs nm v4 v6).2 = false →
        UpdateV1.update_ddns_put rs nm v4 v6 = none) := by
  refine ⟨?_, ?_, ?_⟩
  · intro rs cfg v4 v6 rs1 h
    simp [Mijnhost.routine_write, h]
  · intro rs cfg v4 v6 dry h
    simp [Updater.update_ddns_put, h]
  · intro rs nm v4 v6 h
    simp [UpdateV1.update_ddns_put, h]

/-- C5 witness: no-op passes over an empty record set write nothing. -/
theorem c5_witness :
    Mijnhost.routine_write [] cfgT none none = .ok none ∧
    Updater.update_ddns_put [] ucfg none none false = none ∧
    UpdateV1.update_ddns_put [] tName none none = none :=
  ⟨c5_no_write_without_change.1 [] cfgT none none [] (by decide),
   c5_no_write_without_change.2.1 [] ucfg none none false (by decide),
   c5_no_write_without_change.2.2 [] tName none none (by decide)⟩

/-- C10: `update_record_list` is not total on malformed stored values — when
the first matching A (resp. AAAA) record's value does not parse as an IPv4
(resp. IPv6) literal and an address of that family is discovered, the
`ipaddress` constructor's error escapes instead of the record being treated as
differing. -/
theorem c10_malformed_value_raises :
    (∀ (rs : List Record) (cfg : Mijnhost.Config) (i : Nat) (a : Record) (w : Nat)
        (v6 : Option Nat),
        Mijnhost.findRec (chars "A") cfg.record_name rs = some (i, a) →
        parseV4 a.value = none →
        Mijnhost.update_record_list rs cfg (some w) v6 =
          .error (.invalidIPv4 a.value)) ∧
    (∀ (rs : List Record) (cfg : Mijnhost.Config) (j : Nat) (b : Record) (w : Nat),
        Mijnhost.findRec (chars "AAAA") cfg.record_name rs = some (j, b) →
        parseV6 b.value = none →
        Mijnhost.update_record_list rs cfg none (some w) =
          .error (.invalidIPv6 b.value)) := by
  constructor
  · intro rs cfg i a w v6 hfa hpa
    simp [Mijnhost.update_record_list, Mijnhost.stepA, hfa, hpa]
  · intro rs cfg j b w hfb hpb
    have hD : rs[j]? = some b := by
      rw [← List.get?_eq_getElem?]
      exact (Mijnhost.findRec_eq_some hfb).1
    cases hfa : Mijnhost.findRec (chars "A") cfg.record_name rs with
    | none =>
      simp [Mijnhost.update_record_list, Mijnhost.stepA, Mijnhost.stepAAAA, hfa, hfb, hD, hpb]
    | some p =>
      obtain ⟨i, a⟩ := p
      cases hm : cfg.manage_records <;>
        simp [Mijnhost.update_record_list, Mijnhost.stepA, Mijnhost.stepAAAA, hfa, hfb, hm,
          hD, hpb]

/-- C10 witness: a malformed A-record value crashes a run with a discovered
IPv4 address. -/
theorem c10_witness :
    Mijnhost.update_record_list [⟨chars "A", tName, chars "not-an-ip", 300⟩] cfgT
      (some 0x05060708) none =
      .error (.invalidIPv4 (chars "not-an-ip")) :=
  c10_malformed_value_raises.1 [⟨chars "A", tName, chars "not-an-ip", 300⟩] cfgT 0
    ⟨chars "A", tName, chars "not-an-ip", 300⟩ 0x05060708 none (by decide) (by decide)

/-- C2 counterexample: with two A records sharing the target `(type, name)`
pair, record management on and the discovered IPv4 absent, the removal filter
deletes BOTH records — the output is empty, so the second record was not left
untouched as the claim states. -/
theorem c2_counterexample :
    Mijnhost.update_record_list [recA1, recA2] cfgT none none = .ok ([], true) ∧
    recA2 ∉ ([] : List Record) := by
  refine ⟨by decide, by decide⟩

/-- C2 (amended): given record management on, an existing A record for the
target and no discovered IPv4, a pass removes EVERY record whose `(type,
name)` equals `(A, target)` — exactly the one matching record when it is
unique — sets `action_taken`, and passes all other records through unchanged;
in particular an AAAA sibling whose value canonically equals the discovered
IPv6 (or the absence of both) is untouched. -/
theorem c2_delete_on_address_loss (rs : List Record) (cfg : Mijnhost.Config)
    (v6 : Option Nat)
    (hm : cfg.manage_records = true)
    (ha : (Mijnhost.findRec (chars "A") cfg.record_name rs).isSome = true)
    (hsteady :
      (Mijnhost.findRec (chars "AAAA") cfg.record_name rs = none ∧ v6 = none) ∨
      (∃ j b u w, Mijnhost.findRec (chars "AAAA") cfg.record_name rs = some (j, b) ∧
        v6 = some w ∧ parseV6 b.value = some u ∧ canonV6 u = canonV6 w)) :
    Mijnhost.update_record_list rs cfg none v6 =
      .ok (rs.filter (fun r => !(r.type == chars "A" && r.name == cfg.record_name)),
        true) := by
  obtain ⟨⟨i, a⟩, hfa⟩ := Option.isSome_iff_exists.1 ha
  rcases hsteady with ⟨hfb, rfl⟩ | ⟨j, b, u, w, hfb, rfl, hpu, hcan⟩
  · simp [Mijnhost.update_record_list, Mijnhost.stepA, Mijnhost.stepAAAA,
      Mijnhost.applyRemovals, hfa, hfb, hm]
  · have hD : rs[j]? = some b := by
      rw [← List.get?_eq_getElem?]
      exact (Mijnhost.findRec_eq_some hfb).1
    have hbeq : (canonV6 u == canonV6 w) = true := by rw [beq_iff_eq]; exact hcan
    simp [Mijnhost.update_record_list, Mijnhost.stepA, Mijnhost.stepAAAA,
      Mijnhost.applyRemovals, hfa, hfb, hm, hD, hpu, hbeq]

/-- C2 witness: deleting the unique A record for the target leaves the
matching AAAA sibling and an MX record untouched. -/
theorem c2_witness :
    Mijnhost.update_record_list [recA1, recAAAA, recMX] cfgT none (some w6) =
      .ok ([recAAAA, recMX], true) := by
  have h := c2_delete_on_address_loss [recA1, recAAAA, recMX] cfgT (some w6) rfl
    (by decide)
    (Or.inr ⟨1, recAAAA, w6, w6, by decide, rfl, by decide, rfl⟩)
  rw [h]
  decide

/-- C3 counterexample: in `mijn_host_ddns_updater.py` (cited lines 138-144),
with an existing A record of TTL 1800 for the target, no AAAA record, a
discovered IPv6 and creation enabled, the created AAAA record's TTL is the
configured `default_ttl` 300, not the sibling's 1800. -/
theorem c3_counterexample :
    Updater.update_ddns_core [recA1800] ucfg none (some (chars "2001:db8::1")) =
      ([recA1800, ⟨chars "AAAA", chars "home", chars "2001:db8::1", 300⟩],
       [Updater.DChange.createAAAA (chars "home.example.com") (chars "2001:db8::1") 300]) ∧
    (300 : Nat) ≠ 1800 := by
  refine ⟨by decide, by decide⟩

/-- C3 (amended): TTL inheritance holds in `mijnhost.py`'s
`update_record_list` — the record created for one family carries the TTL of
the existing sibling of the other family (1800 in the claimed scenario), in
both directions; `mijn_host_ddns_updater.py`'s `update_ddns` instead always
assigns `default_ttl` to created records. -/
theorem c3_ttl_inheritance :
    (∀ (rs : List Record) (cfg : Mijnhost.Config) (i : Nat) (a : Record) (w : Nat)
        (v4 : Option Nat) (rs1 : List Record) (act : Bool),
        Mijnhost.findRec (chars "A") cfg.record_name rs = some (i, a) →
        Mijnhost.findRec (chars "AAAA") cfg.record_name rs = none →
        cfg.manage_records = true →
        Mijnhost.update_record_list rs cfg v4 (some w) = .ok (rs1, act) →
        (⟨chars "AAAA", cfg.record_name, canonV6 w, a.ttl⟩ : Record) ∈ rs1) ∧
    (∀ (rs : List Record) (cfg : Mijnhost.Config) (j : Nat) (b : Record) (w : Nat)
        (v6 : Option Nat) (rs1 : List Record) (act : Bool),
        Mijnhost.findRec (chars "AAAA") cfg.record_name rs = some (j, b) →
        Mijnhost.findRec (chars "A") cfg.record_name rs = none →
        cfg.manage_records = true →
        Mijnhost.update_record_list rs cfg (some w) v6 = .ok (rs1, act) →
        (⟨chars "A", cfg.record_name, canonV4 w, b.ttl⟩ : Record) ∈ rs1) := by
  constructor
  · intro rs cfg i a w v4 rs1 act hfa hfb hm h
    have hgi : rs[i]? = some a := by
      rw [← List.get?_eq_getElem?]
      exact (Mijnhost.findRec_eq_some hfa).1
    cases v4 with
    | none =>
      have hrun : Mijnhost.update_record_list rs cfg none (some w) =
          .ok ((rs ++ [(⟨chars "AAAA", cfg.record_name, canonV6 w, a.ttl⟩ : Record)]).filter
                (fun r => !(r.type == chars "A" && r.name == cfg.record_name)), true) := by
        simp [Mijnhost.update_record_list, Mijnhost.stepA, Mijnhost.stepAAAA,
          Mijnhost.applyRemovals, hfa, hfb, hm, hgi]
      rw [hrun] at h
      injection h with hp
      injection hp with h1 h2
      rw [← h1]
      refine List.mem_filter.2 ⟨List.mem_append_right _ (List.mem_singleton_self _), ?_⟩
      simp [show ((chars "AAAA" : Str) == chars "A") = false from by decide]
    | some w4 =>
      cases hpa : parseV4 a.value with
      | none =>
        rw [show Mijnhost.update_record_list rs cfg (some w4) (some w) =
            .error (.invalidIPv4 a.value) from by
          simp [Mijnhost.update_record_list, Mijnhost.stepA, hfa, hpa]] at h
        cases h
      | some u =>
        by_cases hc : (canonV4 u == canonV4 w4) = true
        · have hrun : Mijnhost.update_record_list rs cfg (some w4) (some w) =
              .ok (rs ++ [(⟨chars "AAAA", cfg.record_name, canonV6 w, a.ttl⟩ : Record)], true) := by
            simp [Mijnhost.update_record_list, Mijnhost.stepA, Mijnhost.stepAAAA,
              Mijnhost.applyRemovals, hfa, hfb, hm, hgi, hpa, hc]
          rw [hrun] at h
          injection h with hp
          injection hp with h1 h2
          rw [← h1]
          exact List.mem_append_right _ (List.mem_singleton_self _)
        · have hgi2 : (rs.set i { a with value := canonV4 w4 })[i]? =
              some { a with value := canonV4 w4 } := by
            rw [← List.get?_eq_getElem?]
            have hlen : i < rs.length := by
              by_contra hge
              rw [← List.get?_eq_getElem?, List.get?_eq_none.2 (by omega)] at hgi
              cases hgi
            rw [List.get?_eq_getElem?]
            simp [List.getElem?_set_self', List.getElem?_eq_getElem hlen]
          have hrun : Mijnhost.update_record_list rs cfg (some w4) (some w) =
              .ok ((rs.set i { a with value := canonV4 w4 }) ++
                [(⟨chars "AAAA", cfg.record_name, canonV6 w, a.ttl⟩ : Record)], true) := by
            simp [Mijnhost.update_record_list, Mijnhost.stepA, Mijnhost.stepAAAA,
              Mijnhost.applyRemovals, hfa, hfb, hm, hpa, hc, hgi2]
          rw [hrun] at h
          injection h with hp
          injection hp with h1 h2
          rw [← h1]
          exact List.mem_append_right _ (List.mem_singleton_self _)
  · intro rs cfg j b w v6 rs1 act hfb hfa hm h
    have hgj : rs[j]? = some b := by
      rw [← List.get?_eq_getElem?]
      exact (Mijnhost.findRec_eq_some hfb).1
    have hgj1 : (rs ++ [(⟨chars "A", cfg.record_name, canonV4 w, b.ttl⟩ : Record)])[j]? =
        some b := by
      rw [← List.get?_eq_getElem?]
      exact getqAppendLeft (by rw [List.get?_eq_getElem?]; exact hgj)
    have hbne : b.type = chars "AAAA" := (Mijnhost.findRec_eq_some hfb).2.1
    cases v6 with
    | none =>
      have hrun : Mijnhost.update_record_list rs cfg (some w) none =
          .ok ((rs ++ [(⟨chars "A", cfg.record_name, canonV4 w, b.ttl⟩ : Record)]).filter
                (fun r => !(r.type == chars "AAAA" && r.name == cfg.record_name)), true) := by
        simp [Mijnhost.update_record_list, Mijnhost.stepA, Mijnhost.stepAAAA,
          Mijnhost.applyRemovals, hfa, hfb, hm, hgj]
      rw [hrun] at h
      injection h with hp
      injection hp with h1 h2
      rw [← h1]
      refine List.mem_filter.2 ⟨List.mem_append_right _ (List.mem_singleton_self _), ?_⟩
      simp [show ((chars "A" : Str) == chars "AAAA") = false from by decide]
    | some w6 =>
      cases hpb : parseV6 b.value with
      | none =>
        rw [show Mijnhost.update_record_list rs cfg (some w) (some w6) =
            .error (.invalidIPv6 b.value) from by
          simp [Mijnhost.update_record_list, Mijnhost.stepA, Mijnhost.stepAAAA,
            hfa, hfb, hm, hgj, hgj1, hpb]] at h
        cases h
      | some u =>
        by_cases hc : (canonV6 u == canonV6 w6) = true
        · have hrun : Mijnhost.update_record_list rs cfg (some w) (some w6) =
              .ok (rs ++ [(⟨chars "A", cfg.record_name, canonV4 w, b.ttl⟩ : Record)], true) := by
            simp [Mijnhost.update_record_list, Mijnhost.stepA, Mijnhost.stepAAAA,
              Mijnhost.applyRemovals, hfa, hfb, hm, hgj, hgj1, hpb, hc]
          rw [hrun] at h
          injection h with hp
          injection hp with h1 h2
          rw [← h1]
          exact List.mem_append_right _ (List.mem_singleton_self _)
        · have hrun : Mijnhost.update_record_list rs cfg (some w) (some w6) =
              .ok ((rs ++ [(⟨chars "A", cfg.record_name, canonV4 w, b.ttl⟩ : Record)]).set j
                { b with value := canonV6 w6 }, true) := by
            simp [Mijnhost.update_record_list, Mijnhost.stepA, Mijnhost.stepAAAA,
              Mijnhost.applyRemovals, hfa, hfb, hm, hgj, hgj1, hpb, hc]
          rw [hrun] at h
          injection h with hp
          injection hp with h1 h2
          rw [← h1]
          refine memSetNe (u := b) (List.mem_append_right _ (List.mem_singleton_self _)) ?_ ?_
          · rw [List.get?_eq_getElem?]
            exact hgj1
          · intro he
            have := congrArg Record.type he
            rw [hbne] at this
            exact absurd this (show ¬ (chars "A" : Str) = chars "AAAA" from by decide)

/-- C3 witness: creating the AAAA record next to an A record with TTL 1800
yields TTL 1800 (and symmetrically for the A record next to an AAAA sibling
with TTL 1800). -/
theorem c3_witness :
    (⟨chars "AAAA", tName, canonV6 w6, 1800⟩ : Record) ∈
      [(⟨chars "AAAA", tName, canonV6 w6, 1800⟩ : Record)] ∧
    (⟨chars "A", tName, canonV4 0x05060708, 1800⟩ : Record) ∈
      [⟨chars "AAAA", tName, chars "2001:db8::1", 1800⟩,
       ⟨chars "A", tName, canonV4 0x05060708, 1800⟩] :=
  ⟨c3_ttl_inheritance.1 [recA1800] cfgT 0 recA1800 w6 none
      [⟨chars "AAAA", tName, canonV6 w6, 1800⟩] true
      (by decide) (by decide) rfl (by decide),
   c3_ttl_inheritance.2 [⟨chars "AAAA", tName, chars "2001:db8::1", 1800⟩] cfgT 0
      ⟨chars "AAAA", tName, chars "2001:db8::1", 1800⟩ 0x05060708 (some w6)
      [⟨chars "AAAA", tName, chars "2001:db8::1", 1800⟩,
       ⟨chars "A", tName, canonV4 0x05060708, 1800⟩] true
      (by decide) (by decide) rfl (by decide)⟩

namespace Mijnhost

/-- The A block only rewrites or appends records whose `(type, name)` is
`(A, target)`: multiplicities of all other record values are unchanged. -/
theorem stepA_count (rs rs1 : List Record) (cfg : Config) (v4 : Option Nat)
    (aaidx : Option (Nat × Record)) (a1 rem : Bool) (r : Record)
    (h : stepA rs cfg v4 (findRec (chars "A") cfg.record_name rs) aaidx = .ok (rs1, a1, rem))
    (hr : r.type ≠ chars "A" ∨ r.name ≠ cfg.record_name) :
    rs1.count r = rs.count r := by
  cases hfa : findRec (chars "A") cfg.record_name rs with
  | none =>
    rw [hfa] at h
    cases v4 with
    | none =>
      simp only [stepA] at h
      obtain ⟨h1, h2, h3⟩ := by simpa using h
      rw [← h1]
    | some w =>
      cases hm : cfg.manage_records with
      | false =>
        simp only [stepA, hm] at h
        obtain ⟨h1, h2, h3⟩ := by simpa using h
        rw [← h1]
      | true =>
        simp only [stepA, hm] at h
        obtain ⟨h1, h2, h3⟩ := by simpa using h
        rw [← h1]
        refine countAppendNe ?_
        intro he
        rcases hr with hty | hnm
        · exact hty (by rw [he])
        · exact hnm (by rw [he])
  | some p =>
    obtain ⟨i, a⟩ := p
    obtain ⟨hga, hta, hna⟩ := findRec_eq_some hfa
    have hra : r ≠ a := by
      intro he
      rcases hr with hty | hnm
      · exact hty (by rw [he, hta])
      · exact hnm (by rw [he, hna])
    rw [hfa] at h
    cases v4 with
    | none =>
      cases hm : cfg.manage_records with
      | false =>
        simp only [stepA, hm] at h
        obtain ⟨h1, h2, h3⟩ := by simpa using h
        rw [← h1]
      | true =>
        simp only [stepA, hm] at h
        obtain ⟨h1, h2, h3⟩ := by simpa using h
        rw [← h1]
    | some w =>
      cases hpa : parseV4 a.value with
      | none =>
        simp only [stepA, hpa] at h
        cases h
      | some u =>
        by_cases hc : (canonV4 u == canonV4 w) = true
        · simp only [stepA, hpa, hc, if_true] at h
          obtain ⟨h1, h2, h3⟩ := by simpa using h
          rw [← h1]
        · simp only [stepA, hpa] at h
          rw [if_neg hc] at h
          obtain ⟨h1, h2, h3⟩ := by simpa using h
          rw [← h1]
          refine countSetNe hga hra ?_
          intro he
          rcases hr with hty | hnm
          · exact hty (by rw [he]; exact hta)
          · exact hnm (by rw [he]; exact hna)

/-- The A block leaves every position holding a non-A record untouched. -/
theorem stepA_get_nonA (rs rs1 : List Record) (cfg : Config) (v4 : Option Nat)
    (aaidx : Option (Nat × Record)) (a1 rem : Bool)
    (h : stepA rs cfg v4 (findRec (chars "A") cfg.record_name rs) aaidx = .ok (rs1, a1, rem))
    {j : Nat} {b : Record} (hjb : rs.get? j = some b) (hb : b.type ≠ chars "A") :
    rs1.get? j = some b := by
  cases hfa : findRec (chars "A") cfg.record_name rs with
  | none =>
    rw [hfa] at h
    cases v4 with
    | none =>
      simp only [stepA] at h
      obtain ⟨h1, h2, h3⟩ := by simpa using h
      rw [← h1]; exact hjb
    | some w =>
      cases hm : cfg.manage_records with
      | false =>
        simp only [stepA, hm] at h
        obtain ⟨h1, h2, h3⟩ := by simpa using h
        rw [← h1]; exact hjb
      | true =>
        simp only [stepA, hm] at h
        obtain ⟨h1, h2, h3⟩ := by simpa using h
        rw [← h1]
        exact getqAppendLeft hjb
  | some p =>
    obtain ⟨i, a⟩ := p
    obtain ⟨hga, hta, hna⟩ := findRec_eq_some hfa
    have hij : i ≠ j := by
      intro he
      subst he
      rw [hga] at hjb
      injection hjb with he2
      exact hb (by rw [← he2, hta])
    rw [hfa] at h
    cases v4 with
    | none =>
      cases hm : cfg.manage_records with
      | false =>
        simp only [stepA, hm] at h
        obtain ⟨h1, h2, h3⟩ := by simpa using h
        rw [← h1]; exact hjb
      | true =>
        simp only [stepA, hm] at h
        obtain ⟨h1, h2, h3⟩ := by simpa using h
        rw [← h1]; exact hjb
    | some w =>
      cases hpa : parseV4 a.value with
      | none =>
        simp only [stepA, hpa] at h
        cases h
      | some u =>
        by_cases hc : (canonV4 u == canonV4 w) = true
        · simp only [stepA, hpa, hc, if_true] at h
          obtain ⟨h1, h2, h3⟩ := by simpa using h
          rw [← h1]; exact hjb
        · simp only [stepA, hpa] at h
          rw [if_neg hc] at h
          obtain ⟨h1, h2, h3⟩ := by simpa using h
          rw [← h1]
          rw [List.get?_eq_getElem?] at hjb ⊢
          rw [List.getElem?_set_ne hij]
          exact hjb

/-- The AAAA block only rewrites or appends records whose `(type, name)` is
`(AAAA, target)`: multiplicities of all other record values are unchanged.
`rs0` is the list the lookup indices were computed on; `hpres` says the list
the block runs on still holds the found record at the found index. -/
theorem stepAAAA_count (rs0 rs1 rs2 : List Record) (cfg : Config) (v6 : Option Nat)
    (aidx : Option (Nat × Record)) (a2 rem2 : Bool) (r : Record)
    (hpres : ∀ j b, findRec (chars "AAAA") cfg.record_name rs0 = some (j, b) →
      rs1.get? j = some b)
    (h : stepAAAA rs1 cfg v6 aidx (findRec (chars "AAAA") cfg.record_name rs0) =
      .ok (rs2, a2, rem2))
    (hr : r.type ≠ chars "AAAA" ∨ r.name ≠ cfg.record_name) :
    rs2.count r = rs1.count r := by
  cases hfb : findRec (chars "AAAA") cfg.record_name rs0 with
  | none =>
    rw [hfb] at h
    cases v6 with
    | none =>
      simp only [stepAAAA] at h
      obtain ⟨h1, h2, h3⟩ := by simpa using h
      rw [← h1]
    | some w =>
      cases hm : cfg.manage_records with
      | false =>
        simp only [stepAAAA, hm] at h
        obtain ⟨h1, h2, h3⟩ := by simpa using h
        rw [← h1]
      | true =>
        simp only [stepAAAA, hm] at h
        obtain ⟨h1, h2, h3⟩ := by simpa using h
        rw [← h1]
        refine countAppendNe ?_
        intro he
        rcases hr with hty | hnm
        · exact hty (by rw [he])
        · exact hnm (by rw [he])
  | some p =>
    obtain ⟨j, b⟩ := p
    obtain ⟨_, htb, hnb⟩ := findRec_eq_some hfb
    have hgb : rs1.get? j = some b := hpres j b hfb
    have hgb' : rs1[j]? = some b := by rw [← List.get?_eq_getElem?]; exact hgb
    have hrb : r ≠ b := by
      intro he
      rcases hr with hty | hnm
      · exact hty (by rw [he, htb])
      · exact hnm (by rw [he, hnb])
    rw [hfb] at h
    cases v6 with
    | none =>
      cases hm : cfg.manage_records with
      | false =>
        simp only [stepAAAA, hm] at h
        obtain ⟨h1, h2, h3⟩ := by simpa using h
        rw [← h1]
      | true =>
        simp only [stepAAAA, hm] at h
        obtain ⟨h1, h2, h3⟩ := by simpa using h
        rw [← h1]
    | some w =>
      cases hpb : parseV6 b.value with
      | none =>
        simp only [stepAAAA, List.getD_eq_getElem?_getD, hgb', Option.getD_some, hpb] at h
        cases h
      | some u =>
        by_cases hc : (canonV6 u == canonV6 w) = true
        · simp only [stepAAAA, List.getD_eq_getElem?_getD, hgb', Option.getD_some, hpb,
            hc, if_true] at h
          obtain ⟨h1, h2, h3⟩ := by simpa using h
          rw [← h1]
        · simp only [stepAAAA, List.getD_eq_getElem?_getD, hgb', Option.getD_some, hpb] at h
          rw [if_neg hc] at h
          obtain ⟨h1, h2, h3⟩ := by simpa using h
          rw [← h1]
          refine countSetNe hgb hrb ?_
          intro he
          rcases hr with hty | hnm
          · exact hty (by rw [he]; exact htb)
          · exact hnm (by rw [he]; exact hnb)

/-- The removal phase only filters out records whose `(type, name)` matches
one of the managed pairs. -/
theorem applyRemovals_count (rs2 : List Record) (cfg : Config) (act ra raa : Bool)
    (r : Record)
    (hrA : r.type ≠ chars "A" ∨ r.name ≠ cfg.record_name)
    (hrAAAA : r.type ≠ chars "AAAA" ∨ r.name ≠ cfg.record_name) :
    (applyRemovals rs2 cfg act ra raa).1.count r = rs2.count r := by
  have hpA : (fun x : Record => !(x.type == chars "A" && x.name == cfg.record_name)) r
      = true := by
    rcases hrA with hh | hh <;> simp [beq_eq_false_iff_ne.2 hh]
  have hpAAAA : (fun x : Record => !(x.type == chars "AAAA" && x.name == cfg.record_name)) r
      = true := by
    rcases hrAAAA with hh | hh <;> simp [beq_eq_false_iff_ne.2 hh]
  cases ra <;> cases raa
  · rfl
  · exact List.count_filter
      (p := fun x : Record => !(x.type == chars "AAAA" && x.name == cfg.record_name)) hpAAAA
  · exact List.count_filter
      (p := fun x : Record => !(x.type == chars "A" && x.name == cfg.record_name)) hpA
  · exact (List.count_filter
      (p := fun x : Record => !(x.type == chars "AAAA" && x.name == cfg.record_name))
        hpAAAA).trans
      (List.count_filter
        (p := fun x : Record => !(x.type == chars "A" && x.name == cfg.record_name)) hpA)

end Mijnhost

namespace Updater

/-- A record failing the predicate survives `updateFirst` untouched. -/
theorem memUpdateFirst {p : Record → Bool} {f : Record → Record} {r : Record} :
    ∀ {l : List Record}, r ∈ l → p r = false → r ∈ updateFirst p f l := by
  intro l
  induction l with
  | nil => intro hmem _; cases hmem
  | cons x xs ih =>
    intro hmem hpr
    rw [updateFirst]
    by_cases hpx : p x = true
    · rw [if_pos hpx]
      rcases List.mem_cons.1 hmem with he | hxs
      · exact absurd (he ▸ hpr) (by rw [hpx]; intro hh; cases hh)
      · exact List.mem_cons_of_mem _ hxs
    · rw [if_neg hpx]
      rcases List.mem_cons.1 hmem with he | hxs
      · exact he ▸ List.mem_cons_self _ _
      · exact List.mem_cons_of_mem _ (ih hxs hpr)

/-- The A block of `update_ddns` keeps every record that is not an A record
normalizing to the processed target. -/
theorem processA_mem (cfg : DConfig) (ip n : Str) (st : List Record × List DChange)
    (r : Record) (hmem : r ∈ st.1)
    (hc : r.type ≠ chars "A" ∨ rstripDots r.name ≠ full_target_name n cfg.domain_name) :
    r ∈ (processA cfg ip n st).1 := by
  have hpr : matchA (full_target_name n cfg.domain_name) r = false := by
    rcases hc with hh | hh <;>
      simp [matchA, normalize_record_name, beq_eq_false_iff_ne.2 hh]
  cases hfind : st.1.find? (matchA (full_target_name n cfg.domain_name)) with
  | none =>
    cases hcr : cfg.create_records_if_missing <;> simp [processA, hfind, hcr]
    · exact hmem
    · exact Or.inl hmem
  | some found =>
    by_cases hv : (found.value == ip) = true
    · simp only [processA, hfind, hv, if_true]
      exact hmem
    · simp only [processA, hfind, if_neg hv]
      exact memUpdateFirst hmem hpr

/-- The AAAA block of `update_ddns` keeps every record that is not an AAAA
record normalizing to the processed target. -/
theorem processAAAA_mem (cfg : DConfig) (ip n : Str) (st : List Record × List DChange)
    (r : Record) (hmem : r ∈ st.1)
    (hc : r.type ≠ chars "AAAA" ∨ rstripDots r.name ≠ full_target_name n cfg.domain_name) :
    r ∈ (processAAAA cfg ip n st).1 := by
  have hpr : matchAAAA (full_target_name n cfg.domain_name) r = false := by
    rcases hc with hh | hh <;>
      simp [matchAAAA, normalize_record_name, beq_eq_false_iff_ne.2 hh]
  cases hfind : st.1.find? (matchAAAA (full_target_name n cfg.domain_name)) with
  | none =>
    cases hcr : cfg.create_records_if_missing <;> simp [processAAAA, hfind, hcr]
    · exact hmem
    · exact Or.inl hmem
  | some found =>
    by_cases hv : (found.value == ip) = true
    · simp only [processAAAA, hfind, hv, if_true]
      exact hmem
    · simp only [processAAAA, hfind, if_neg hv]
      exact memUpdateFirst hmem hpr

/-- One loop iteration of `update_ddns` keeps every record outside the managed
families or whose normalized name misses the processed target. -/
theorem processName_mem (cfg : DConfig) (v4 v6 : Option Str) (n : Str)
    (st : List Record × List DChange) (r : Record) (hmem : r ∈ st.1)
    (hc : (r.type ≠ chars "A" ∧ r.type ≠ chars "AAAA") ∨
      rstripDots r.name ≠ full_target_name n cfg.domain_name) :
    r ∈ (processName cfg v4 v6 st n).1 := by
  have hcA : r.type ≠ chars "A" ∨ rstripDots r.name ≠ full_target_name n cfg.domain_name := by
    tauto
  have hcAAAA : r.type ≠ chars "AAAA" ∨
      rstripDots r.name ≠ full_target_name n cfg.domain_name := by
    tauto
  rw [processName]
  cases htr4 : truthy v4 <;> cases htr6 : truthy v6
  · exact hmem
  · exact processAAAA_mem cfg _ n st r hmem hcAAAA
  · exact processA_mem cfg _ n st r hmem hcA
  · exact processAAAA_mem cfg _ n _ r (processA_mem cfg _ n st r hmem hcA) hcAAAA

/-- The whole `update_ddns` loop preserves such records, for any subset of the
configured names. -/
theorem foldNames_mem (cfg : DConfig) (v4 v6 : Option Str) (r : Record) :
    ∀ (ns : List Str) (st : List Record × List DChange), r ∈ st.1 →
      (∀ n ∈ ns, (r.type ≠ chars "A" ∧ r.type ≠ chars "AAAA") ∨
        rstripDots r.name ≠ full_target_name n cfg.domain_name) →
      r ∈ (ns.foldl (processName cfg v4 v6) st).1 := by
  intro ns
  induction ns with
  | nil => intro st hmem _; exact hmem
  | cons n ns ih =>
    intro st hmem hcond
    rw [List.foldl_cons]
    exact ih _ (processName_mem cfg v4 v6 n st r hmem (hcond n (List.mem_cons_self _ _)))
      (fun m hm => hcond m (List.mem_cons_of_mem _ hm))

end Updater

/-- C6: untouched passthrough.  In `mijnhost.py`, a reconciliation pass
preserves the exact multiplicity of every record value whose type is neither A
nor AAAA or whose name differs from the target (the lookup's exact-equality
sense of "does not match"); in `mijn_host_ddns_updater.py`, every input record
outside the managed families, or whose dot-normalized name matches none of the
configured targets, is still present unmodified in the output list. -/
theorem c6_untouched_passthrough :
    (∀ (rs : List Record) (cfg : Mijnhost.Config) (v4 v6 : Option Nat)
        (rs1 : List Record) (act : Bool) (r : Record),
        Mijnhost.update_record_list rs cfg v4 v6 = .ok (rs1, act) →
        (¬(r.type = chars "A" ∨ r.type = chars "AAAA") ∨ r.name ≠ cfg.record_name) →
        rs1.count r = rs.count r) ∧
    (∀ (rs : List Record) (cfg : Updater.DConfig) (v4 v6 : Option Str) (r : Record),
        r ∈ rs →
        ((r.type ≠ chars "A" ∧ r.type ≠ chars "AAAA") ∨
          (∀ n ∈ cfg.record_names,
            rstripDots r.name ≠ Updater.full_target_name n cfg.domain_name)) →
        r ∈ (Updater.update_ddns_core rs cfg v4 v6).1) := by
  constructor
  · intro rs cfg v4 v6 rs1 act r h hcond
    have hrA : r.type ≠ chars "A" ∨ r.name ≠ cfg.record_name := by tauto
    have hrAAAA : r.type ≠ chars "AAAA" ∨ r.name ≠ cfg.record_name := by tauto
    rw [Mijnhost.update_record_list] at h
    cases hA : Mijnhost.stepA rs cfg v4 (Mijnhost.findRec (chars "A") cfg.record_name rs)
        (Mijnhost.findRec (chars "AAAA") cfg.record_name rs) with
    | error e => simp only [hA] at h; cases h
    | ok t1 =>
      obtain ⟨rs2, a1, ra⟩ := t1
      simp only [hA] at h
      cases hAA : Mijnhost.stepAAAA rs2 cfg v6
          (Mijnhost.findRec (chars "A") cfg.record_name rs)
          (Mijnhost.findRec (chars "AAAA") cfg.record_name rs) with
      | error e => simp only [hAA] at h; cases h
      | ok t2 =>
        obtain ⟨rs3, a2, raa⟩ := t2
        simp only [hAA] at h
        injection h with hp
        have h1 : (Mijnhost.applyRemovals rs3 cfg (a1 || a2) ra raa).1 = rs1 := by
          rw [hp]
        rw [← h1]
        rw [Mijnhost.applyRemovals_count rs3 cfg (a1 || a2) ra raa r hrA hrAAAA]
        rw [Mijnhost.stepAAAA_count rs rs2 rs3 cfg v6
          (Mijnhost.findRec (chars "A") cfg.record_name rs) a2 raa r
          (fun j b hjb =>
            Mijnhost.stepA_get_nonA rs rs2 cfg v4
              (Mijnhost.findRec (chars "AAAA") cfg.record_name rs) a1 ra hA
              (Mijnhost.findRec_eq_some hjb).1
              (by rw [(Mijnhost.findRec_eq_some hjb).2.1]; decide))
          hAA hrAAAA]
        exact Mijnhost.stepA_count rs rs2 cfg v4
          (Mijnhost.findRec (chars "AAAA") cfg.record_name rs) a1 ra r hA hrA
  · intro rs cfg v4 v6 r hmem hcond
    exact Updater.foldNames_mem cfg v4 v6 r cfg.record_names (rs, []) hmem
      (fun n hn => by
        rcases hcond with hty | hnm
        · exact Or.inl hty
        · exact Or.inr (hnm n hn))

/-- C6 witness: an MX record passes through a deleting `mijnhost.py` run with
unchanged multiplicity, and through a creating `update_ddns` run. -/
theorem c6_witness :
    ([recMX] : List Record).count recMX = ([recA1, recMX] : List Record).count recMX ∧
    recMX ∈ (Updater.update_ddns_core [recMX] ucfg (some (chars "5.6.7.8")) none).1 := by
  constructor
  · exact c6_untouched_passthrough.1 [recA1, recMX] cfgT none none [recMX] true recMX
      (by decide) (Or.inl (by decide))
  · exact c6_untouched_passthrough.2 [recMX] ucfg (some (chars "5.6.7.8")) none recMX
      (by decide) (Or.inl (by decide))
